import Mathlib

/-!
Shallow embedding of the player-matching core of `player_universe_trx`
(`matchers/player_matcher.py` and `models/player.py`), together with
theorems checking the specification's claims about it.

Python `Optional[str]` fields become `Option String`; a candidate
dictionary key that may be absent becomes an `Option` field (`none` =
key absent).  Stateful methods of `PlayerMatcher` become explicit
state-passing functions over `MatcherState`.
-/

namespace PlayerUniverse

/-- Python's truthiness test `not s` for an `Optional[str]`:
`None` and the empty string are falsy. -/
def falsyOptStr : Option String → Bool
  | none => true
  | some s => s = ""

/-- Accumulator loop for `pySplit`: `acc` holds the characters of the
current token in reverse order. -/
def splitWsAux : List Char → List Char → List String
  | [], acc => if acc.isEmpty then [] else [String.mk acc.reverse]
  | c :: cs, acc =>
    if c.isWhitespace then
      if acc.isEmpty then splitWsAux cs []
      else String.mk acc.reverse :: splitWsAux cs []
    else splitWsAux cs (c :: acc)

/-- Python `str.split()` (no argument): split on runs of whitespace,
dropping empty tokens. -/
def pySplit (s : String) : List String :=
  splitWsAux s.data []

/-- Character-wise lowercasing (Python `str.lower()` restricted to the
ASCII range, which is all the suffix regex needs). -/
def strToLower (s : String) : String :=
  String.mk (s.data.map Char.toLower)

/-- The generational-suffix test of `_extract_last_name`:
`re.match(r"^(Jr\.?|Sr\.?|I{2,3}|IV)$", tok, re.IGNORECASE)`.
The tokens tested come from `str.split()` and hence contain no
newline, so the regex is exactly a case-insensitive membership test
in {Jr, Jr., Sr, Sr., II, III, IV}. -/
def isSuffixTok (tok : String) : Bool :=
  let t := strToLower tok
  t = "jr" || t = "jr." || t = "sr" || t = "sr." || t = "ii" || t = "iii" || t = "iv"

/-- `PlayerMatcher._extract_last_name` / module-level `extract_last_name`. -/
def extract_last_name (full_name : String) : String :=
  let parts := pySplit full_name
  match parts with
  | [] => ""
  | _ :: _ =>
    if parts.length > 1 && isSuffixTok (parts.getLastD "") then
      (parts.get? (parts.length - 2)).getD ""
    else
      parts.getLastD ""

/-- `PlayerMatcher._extract_first_name` / module-level `extract_first_name`. -/
def extract_first_name (full_name : String) : String :=
  match pySplit full_name with
  | [] => ""
  | p :: _ => p

/-- The matching-relevant fields of `PlayerModel` (models/player.py).
The pydantic model carries further biographical fields (weight, height,
bats, throws, jersey, ...) that are never read or written by the
matcher or by `merge_fangraphs_data`; they are omitted from the
embedding.  `Optional[...]` becomes `Option _`. -/
structure PlayerModel where
  id_espn : Option Int := none
  id_fangraphs : Option String := none
  id_xmlbam : Option Int := none
  name : Option String := none
  first_name : Option String := none
  last_name : Option String := none
  name_nonascii : Option String := none
  name_ascii : Option String := none
  slug_fangraphs : Option String := none
  fangraphs_api_route : Option String := none
  pro_team : Option String := none
  status : Option String := none
deriving DecidableEq, Repr

/-- A FanGraphs candidate record: in the source a raw `Dict`; each
field here is one of the keys the matcher or the merge reads, with
`none` meaning the key is absent from the dictionary. -/
structure Candidate where
  name : Option String := none
  ascii_name : Option String := none
  team : Option String := none
  playerid : Option String := none
  xmlbam_id : Option Int := none
  slug : Option String := none
  stats_api : Option String := none
deriving DecidableEq, Repr

/-- `PlayerModel.merge_fangraphs_data` (models/player.py lines 165-193):
a `match` over each present key.  `playerid`, `xmlbam_id`, `slug` and
`stats_api` assign unconditionally; `name` and `ascii_name` assign only
when the target field is falsy (None or empty).  Distinct keys write
distinct fields, so the dict-iteration order is irrelevant. -/
def merge_fangraphs_data (p : PlayerModel) (data : Candidate) : PlayerModel :=
  { p with
    id_fangraphs :=
      match data.playerid with
      | some v => some v
      | none => p.id_fangraphs
    id_xmlbam :=
      match data.xmlbam_id with
      | some v => some v
      | none => p.id_xmlbam
    name_nonascii :=
      match data.name with
      | some v => if falsyOptStr p.name_nonascii then some v else p.name_nonascii
      | none => p.name_nonascii
    name_ascii :=
      match data.ascii_name with
      | some v => if falsyOptStr p.name_ascii then some v else p.name_ascii
      | none => p.name_ascii
    slug_fangraphs :=
      match data.slug with
      | some v => some v
      | none => p.slug_fangraphs
    fangraphs_api_route :=
      match data.stats_api with
      | some v => some v
      | none => p.fangraphs_api_route }

/-- The name field the matcher reads from a candidate:
`name_field = "ascii_name" if "ascii_name" in candidate else "name"`,
then `candidate.get(name_field, "")`. -/
def chosenName (c : Candidate) : String :=
  match c.ascii_name with
  | some s => s
  | none => c.name.getD ""

/-- Boolean version of Python `b.startswith(a)` reversed: `isPrefixStr a b`
holds when `a` is a prefix of `b` (structural, so it kernel-reduces). -/
def isPrefixStr (p s : String) : Bool :=
  p.data.isPrefixOf s.data

/-- The last-name key a candidate is indexed under in
`_organize_fg_data_by_last_name`; the empty string denotes "skipped"
(no usable name field, or empty extracted last name). -/
def candLastKey (c : Candidate) : String :=
  extract_last_name (chosenName c)

/-- Lookup in the index built by `_organize_fg_data_by_last_name`:
`fg_by_last_name.get(lname, [])`.  The dict maps each non-empty
extracted last name to the candidates carrying it, in input order,
which is exactly this filter. -/
def fgByLastName (fg_data : List Candidate) (lname : String) : List Candidate :=
  fg_data.filter (fun c => decide (candLastKey c ≠ "") && decide (candLastKey c = lname))

/-- The claimed-set filter of `_find_candidates_by_last_name`:
`c.get("playerid") not in self.matched_fg_ids`.  A candidate without a
`playerid` key yields Python `None`, which is never in the set of
claimed id strings. -/
def claimedFilter (claimed : List String) (c : Candidate) : Bool :=
  match c.playerid with
  | some i => decide (i ∉ claimed)
  | none => true

/-- `PlayerMatcher._find_candidates_by_last_name`. -/
def findCandidatesByLastName (fg_data : List Candidate) (claimed : List String)
    (player : PlayerModel) : List Candidate :=
  match player.last_name with
  | none => []
  | some raw =>
    if raw = "" then []
    else
      if extract_last_name raw = "" then []
      else (fgByLastName fg_data (extract_last_name raw)).filter (claimedFilter claimed)

/-- `PlayerMatcher._find_exact_first_name_matches`. -/
def findExactFirstNameMatches (player : PlayerModel) (candidates : List Candidate) :
    List Candidate :=
  match player.first_name with
  | none => []
  | some pfn =>
    if pfn = "" then []
    else candidates.filter (fun c =>
      let fg_first := extract_first_name (chosenName c)
      decide (fg_first ≠ "") && decide (fg_first = pfn))

/-- `PlayerMatcher._find_prefix_first_name_matches`. -/
def findPrefixFirstNameMatches (player : PlayerModel) (candidates : List Candidate) :
    List Candidate :=
  match player.first_name with
  | none => []
  | some pfn =>
    if pfn = "" then []
    else candidates.filter (fun c =>
      let fg_first := extract_first_name (chosenName c)
      decide (fg_first ≠ "") && (isPrefixStr pfn fg_first || isPrefixStr fg_first pfn))

/-- `ESPN_TO_FG_TEAM_MAPPING.get(team_code, team_code)`:
the hardcoded ESPN→FanGraphs table with pass-through default. -/
def ESPN_TO_FG_TEAM_MAPPING_get (code : String) : String :=
  if code = "KC" then "KCR"
  else if code = "SD" then "SDP"
  else if code = "TB" then "TBR"
  else if code = "SF" then "SFG"
  else code

/-- `PlayerMatcher._filter_by_team` (identical to the module-level
`filter_by_team`). -/
def filter_by_team (candidates : List Candidate) (team_code : Option String) :
    List Candidate :=
  match team_code with
  | none => []
  | some tc =>
    if tc = "" then []
    else
      let fg_team_code := ESPN_TO_FG_TEAM_MAPPING_get tc
      candidates.filter (fun c => decide (c.team = some fg_team_code))

/-- The mutable result/tracking fields of a `PlayerMatcher`:
`matched_players`, `ambiguous_matches`, `unmatched_players`,
`matched_fg_ids` (a `Set[str]`, embedded as a duplicate-free list). -/
structure MatcherState where
  matched_players : List PlayerModel := []
  ambiguous_matches : List (PlayerModel × List Candidate) := []
  unmatched_players : List PlayerModel := []
  matched_fg_ids : List String := []
deriving DecidableEq, Repr

/-- `PlayerMatcher._process_match`: merge the candidate into the player,
append to `matched_players`, and claim the candidate's `playerid` when
it has one. -/
def processMatch (s : MatcherState) (player : PlayerModel) (m : Candidate) :
    MatcherState :=
  { s with
    matched_players := s.matched_players ++ [merge_fangraphs_data player m]
    matched_fg_ids :=
      match m.playerid with
      | some fg_id => s.matched_fg_ids.insert fg_id
      | none => s.matched_fg_ids }

/-- `PlayerMatcher._try_match_exact_first_name`; the `Bool` is the
Python return value. -/
def tryMatchExactFirstName (s : MatcherState) (player : PlayerModel)
    (candidates : List Candidate) : MatcherState × Bool :=
  let exact_matches := findExactFirstNameMatches player candidates
  match exact_matches with
  | [] => (s, false)
  | [m] => (processMatch s player m, true)
  | _ :: _ :: _ =>
    match filter_by_team exact_matches player.pro_team with
    | [tm] => (processMatch s player tm, true)
    | _ =>
      ({ s with ambiguous_matches := s.ambiguous_matches ++ [(player, exact_matches)] },
        true)

/-- `PlayerMatcher._try_match_prefix_first_name`. -/
def tryMatchPrefixFirstName (s : MatcherState) (player : PlayerModel)
    (candidates : List Candidate) : MatcherState × Bool :=
  let prefix_matches := findPrefixFirstNameMatches player candidates
  match prefix_matches with
  | [] => (s, false)
  | [m] => (processMatch s player m, true)
  | _ :: _ :: _ =>
    match filter_by_team prefix_matches player.pro_team with
    | [tm] => (processMatch s player tm, true)
    | _ =>
      ({ s with ambiguous_matches := s.ambiguous_matches ++ [(player, prefix_matches)] },
        true)

/-- `PlayerMatcher._try_match_by_team`: one team match → matched;
several → ambiguous against the team-filtered subset; zero → ambiguous
against the full candidate list.  Every branch returns `True`. -/
def tryMatchByTeam (s : MatcherState) (player : PlayerModel)
    (candidates : List Candidate) : MatcherState × Bool :=
  let team_matches := filter_by_team candidates player.pro_team
  match team_matches with
  | [tm] => (processMatch s player tm, true)
  | [] =>
    ({ s with ambiguous_matches := s.ambiguous_matches ++ [(player, candidates)] }, true)
  | _ :: _ :: _ =>
    ({ s with ambiguous_matches := s.ambiguous_matches ++ [(player, team_matches)] }, true)

/-- `PlayerMatcher._match_player`: the progression of strategies for a
single player. -/
def matchPlayerStep (fg_data : List Candidate) (s : MatcherState)
    (player : PlayerModel) : MatcherState :=
  let candidates := findCandidatesByLastName fg_data s.matched_fg_ids player
  match candidates with
  | [] => { s with unmatched_players := s.unmatched_players ++ [player] }
  | _ :: _ =>
    let r1 := tryMatchExactFirstName s player candidates
    if r1.2 then r1.1
    else
      let r2 := tryMatchPrefixFirstName r1.1 player candidates
      if r2.2 then r2.1
      else
        let r3 := tryMatchByTeam r2.1 player candidates
        if r3.2 then r3.1
        else { r3.1 with unmatched_players := r3.1.unmatched_players ++ [player] }

/-- The curated pre-match list of `match_players`. -/
def special_players : List String :=
  ["Gary Sanchez", "Jose Ramirez", "Luis Garcia", "Eugenio Suarez"]

/-- `p.name in special_players` (Python `None` is in no string list). -/
def isSpecial (p : PlayerModel) : Bool :=
  match p.name with
  | some n => decide (n ∈ special_players)
  | none => false

/-- `p.pro_team is not None and p.pro_team != ""`. -/
def hasTeam (p : PlayerModel) : Bool :=
  match p.pro_team with
  | some t => decide (t ≠ "")
  | none => false

/-- `p.status == "active" or p.status == "injured"`. -/
def isActiveOrInjured (p : PlayerModel) : Bool :=
  decide (p.status = some "active") || decide (p.status = some "injured")

/-- The result dictionary of `match_players`. -/
structure MatchResult where
  matched : List PlayerModel
  multiple_matches : List (PlayerModel × List Candidate)
  no_matches : List PlayerModel
deriving DecidableEq, Repr

/-- `PlayerMatcher.match_players` (and the wrapper
`match_player_models_on_fangraphs_data`): reset the state, split the
players into the four priority phases, process each phase in order,
and return the three buckets. -/
def match_players (espn_players : List PlayerModel) (fg_data : List Candidate) :
    MatchResult :=
  let s0 : MatcherState := {}
  let players_to_match := espn_players
  let special_player_models := players_to_match.filter isSpecial
  let remaining_players := players_to_match.filter (fun p => !isSpecial p)
  let team_players := remaining_players.filter hasTeam
  let no_team_players := remaining_players.filter (fun p => !hasTeam p)
  let active_team_players := team_players.filter isActiveOrInjured
  let inactive_team_players := team_players.filter (fun p => !isActiveOrInjured p)
  let s1 := special_player_models.foldl (matchPlayerStep fg_data) s0
  let s2 := active_team_players.foldl (matchPlayerStep fg_data) s1
  let s3 := inactive_team_players.foldl (matchPlayerStep fg_data) s2
  let s4 := no_team_players.foldl (matchPlayerStep fg_data) s3
  { matched := s4.matched_players
    multiple_matches := s4.ambiguous_matches
    no_matches := s4.unmatched_players }

/-- The fields of a `PlayerModel` that the matcher never writes: in the
source a matched player is mutated in place, so its Python object
identity is unchanged; in this functional embedding the projection onto
the merge-untouched fields plays the role of that identity. -/
def matchIdent (p : PlayerModel) :
    Option Int × Option String × Option String × Option String × Option String ×
      Option String :=
  (p.id_espn, p.name, p.first_name, p.last_name, p.pro_team, p.status)

/-- All players held in the three outcome buckets of a state. -/
def bucketPlayers (s : MatcherState) : List PlayerModel :=
  s.matched_players ++ s.ambiguous_matches.map Prod.fst ++ s.unmatched_players

/-- The processing order of `match_players`: the four priority phases,
each an input-order-preserving filter of the input list. -/
def specialFirstOrder (players : List PlayerModel) : List PlayerModel :=
  players.filter isSpecial
    ++ players.filter (fun p => isActiveOrInjured p && (hasTeam p && !isSpecial p))
    ++ players.filter (fun p => !isActiveOrInjured p && (hasTeam p && !isSpecial p))
    ++ players.filter (fun p => !hasTeam p && !isSpecial p)

/-- Invariant carried through a run: every matched player's
`id_fangraphs` is recorded in the claimed set, and no two matched
players share an `id_fangraphs` value. -/
def StateGood (s : MatcherState) : Prop :=
  (∀ q ∈ s.matched_players, ∀ x, q.id_fangraphs = some x → x ∈ s.matched_fg_ids) ∧
  s.matched_players.Pairwise
    (fun a b => ∀ x, a.id_fangraphs = some x → b.id_fangraphs ≠ some x)

/-- Concrete input: two distinct players both named "Al Smith" on the
same team. -/
def demoSmithA : PlayerModel :=
  { id_espn := some 1, name := some "Al Smith", first_name := some "Al",
    last_name := some "Smith", pro_team := some "NYY", status := some "active" }

/-- Second concrete "Al Smith" player. -/
def demoSmithB : PlayerModel :=
  { demoSmithA with id_espn := some 2 }

/-- Concrete candidate without a `playerid` key. -/
def demoSharedCand : Candidate :=
  { name := some "Al Smith", team := some "NYY", slug := some "al-smith" }

/-! ### Helper lemmas -/

lemma getLastD_append_two {α : Type} (l : List α) (a b d : α) :
    (l ++ [a, b]).getLastD d = b := by
  have h : l ++ [a, b] = (l ++ [a]) ++ [b] := by simp
  rw [h, List.getLastD_eq_getLast?, List.getLast?_concat]
  rfl

lemma get?_append_two {α : Type} (l : List α) (a b : α) :
    (l ++ [a, b]).get? l.length = some a := by
  induction l with
  | nil => rfl
  | cons x xs ih => simpa using ih

lemma findExactFirstNameMatches_subset {p : PlayerModel} {cs : List Candidate}
    {c : Candidate} (h : c ∈ findExactFirstNameMatches p cs) : c ∈ cs := by
  unfold findExactFirstNameMatches at h
  split at h
  · exact absurd h (List.not_mem_nil c)
  · split at h
    · exact absurd h (List.not_mem_nil c)
    · exact List.mem_of_mem_filter h

lemma findPrefixFirstNameMatches_subset {p : PlayerModel} {cs : List Candidate}
    {c : Candidate} (h : c ∈ findPrefixFirstNameMatches p cs) : c ∈ cs := by
  unfold findPrefixFirstNameMatches at h
  split at h
  · exact absurd h (List.not_mem_nil c)
  · split at h
    · exact absurd h (List.not_mem_nil c)
    · exact List.mem_of_mem_filter h

lemma filter_by_team_subset {cs : List Candidate} {tc : Option String}
    {c : Candidate} (h : c ∈ filter_by_team cs tc) : c ∈ cs := by
  unfold filter_by_team at h
  split at h
  · exact absurd h (List.not_mem_nil c)
  · split at h
    · exact absurd h (List.not_mem_nil c)
    · exact List.mem_of_mem_filter h

lemma findCandidatesByLastName_not_claimed {fg : List Candidate}
    {claimed : List String} {p : PlayerModel} {c : Candidate}
    (h : c ∈ findCandidatesByLastName fg claimed p) :
    ∀ v, c.playerid = some v → v ∉ claimed := by
  intro v hv
  unfold findCandidatesByLastName at h
  split at h
  · exact absurd h (List.not_mem_nil c)
  · split at h
    · exact absurd h (List.not_mem_nil c)
    · split at h
      · exact absurd h (List.not_mem_nil c)
      · have := List.of_mem_filter h
        unfold claimedFilter at this
        rw [hv] at this
        exact of_decide_eq_true this

lemma tryMatchExactFirstName_cases (s : MatcherState) (p : PlayerModel)
    (cs : List Candidate) :
    (findExactFirstNameMatches p cs = [] ∧ tryMatchExactFirstName s p cs = (s, false)) ∨
    (∃ c ∈ cs, tryMatchExactFirstName s p cs = (processMatch s p c, true)) ∨
    (∃ l, tryMatchExactFirstName s p cs =
      ({ s with ambiguous_matches := s.ambiguous_matches ++ [(p, l)] }, true)) := by
  simp only [tryMatchExactFirstName]
  cases he : findExactFirstNameMatches p cs with
  | nil => exact Or.inl ⟨rfl, rfl⟩
  | cons m ms =>
    cases ms with
    | nil =>
      refine Or.inr (Or.inl ⟨m, ?_, rfl⟩)
      exact findExactFirstNameMatches_subset (he ▸ List.mem_singleton_self m)
    | cons m2 ms2 =>
      cases hf : filter_by_team (m :: m2 :: ms2) p.pro_team with
      | nil => exact Or.inr (Or.inr ⟨m :: m2 :: ms2, rfl⟩)
      | cons t ts =>
        cases ts with
        | nil =>
          refine Or.inr (Or.inl ⟨t, ?_, rfl⟩)
          have ht : t ∈ filter_by_team (m :: m2 :: ms2) p.pro_team := by
            rw [hf]; exact List.mem_singleton_self t
          exact findExactFirstNameMatches_subset (he ▸ filter_by_team_subset ht)
        | cons t2 ts2 => exact Or.inr (Or.inr ⟨m :: m2 :: ms2, rfl⟩)

lemma tryMatchPrefixFirstName_cases (s : MatcherState) (p : PlayerModel)
    (cs : List Candidate) :
    (findPrefixFirstNameMatches p cs = [] ∧ tryMatchPrefixFirstName s p cs = (s, false)) ∨
    (∃ c ∈ cs, tryMatchPrefixFirstName s p cs = (processMatch s p c, true)) ∨
    (∃ l, tryMatchPrefixFirstName s p cs =
      ({ s with ambiguous_matches := s.ambiguous_matches ++ [(p, l)] }, true)) := by
  simp only [tryMatchPrefixFirstName]
  cases he : findPrefixFirstNameMatches p cs with
  | nil => exact Or.inl ⟨rfl, rfl⟩
  | cons m ms =>
    cases ms with
    | nil =>
      refine Or.inr (Or.inl ⟨m, ?_, rfl⟩)
      exact findPrefixFirstNameMatches_subset (he ▸ List.mem_singleton_self m)
    | cons m2 ms2 =>
      cases hf : filter_by_team (m :: m2 :: ms2) p.pro_team with
      | nil => exact Or.inr (Or.inr ⟨m :: m2 :: ms2, rfl⟩)
      | cons t ts =>
        cases ts with
        | nil =>
          refine Or.inr (Or.inl ⟨t, ?_, rfl⟩)
          have ht : t ∈ filter_by_team (m :: m2 :: ms2) p.pro_team := by
            rw [hf]; exact List.mem_singleton_self t
          exact findPrefixFirstNameMatches_subset (he ▸ filter_by_team_subset ht)
        | cons t2 ts2 => exact Or.inr (Or.inr ⟨m :: m2 :: ms2, rfl⟩)

lemma tryMatchByTeam_cases (s : MatcherState) (p : PlayerModel) (cs : List Candidate) :
    (∃ c ∈ cs, tryMatchByTeam s p cs = (processMatch s p c, true)) ∨
    (∃ l, tryMatchByTeam s p cs =
      ({ s with ambiguous_matches := s.ambiguous_matches ++ [(p, l)] }, true)) := by
  simp only [tryMatchByTeam]
  cases hf : filter_by_team cs p.pro_team with
  | nil => exact Or.inr ⟨cs, rfl⟩
  | cons t ts =>
    cases ts with
    | nil =>
      refine Or.inl ⟨t, ?_, rfl⟩
      have ht : t ∈ filter_by_team cs p.pro_team := by
        rw [hf]; exact List.mem_singleton_self t
      exact filter_by_team_subset ht
    | cons t2 ts2 => exact Or.inr ⟨t :: t2 :: ts2, rfl⟩

lemma matchPlayerStep_cases (fg : List Candidate) (s : MatcherState) (p : PlayerModel) :
    (findCandidatesByLastName fg s.matched_fg_ids p = [] ∧
      matchPlayerStep fg s p =
        { s with unmatched_players := s.unmatched_players ++ [p] }) ∨
    (findCandidatesByLastName fg s.matched_fg_ids p ≠ [] ∧
      ((∃ c ∈ findCandidatesByLastName fg s.matched_fg_ids p,
          matchPlayerStep fg s p = processMatch s p c) ∨
       (∃ l, matchPlayerStep fg s p =
          { s with ambiguous_matches := s.ambiguous_matches ++ [(p, l)] }))) := by
  simp only [matchPlayerStep]
  cases hc : findCandidatesByLastName fg s.matched_fg_ids p with
  | nil => exact Or.inl ⟨rfl, rfl⟩
  | cons c0 cs0 =>
    refine Or.inr ⟨by simp, ?_⟩
    rcases tryMatchExactFirstName_cases s p (c0 :: cs0) with ⟨-, h1⟩ | ⟨c, hcc, h1⟩ | ⟨l, h1⟩
    · rcases tryMatchPrefixFirstName_cases s p (c0 :: cs0) with
        ⟨-, h2⟩ | ⟨c, hcc, h2⟩ | ⟨l, h2⟩
      · rcases tryMatchByTeam_cases s p (c0 :: cs0) with ⟨c, hcc, h3⟩ | ⟨l, h3⟩
        · exact Or.inl ⟨c, hcc, by simp [h1, h2, h3]⟩
        · exact Or.inr ⟨l, by simp [h1, h2, h3]⟩
      · exact Or.inl ⟨c, hcc, by simp [h1, h2]⟩
      · exact Or.inr ⟨l, by simp [h1, h2]⟩
    · exact Or.inl ⟨c, hcc, by simp [h1]⟩
    · exact Or.inr ⟨l, by simp [h1]⟩

lemma tryMatchExactFirstName_of_empty (s : MatcherState) (p : PlayerModel)
    (cs : List Candidate) (h : findExactFirstNameMatches p cs = []) :
    tryMatchExactFirstName s p cs = (s, false) := by
  simp only [tryMatchExactFirstName, h]

lemma tryMatchPrefixFirstName_of_empty (s : MatcherState) (p : PlayerModel)
    (cs : List Candidate) (h : findPrefixFirstNameMatches p cs = []) :
    tryMatchPrefixFirstName s p cs = (s, false) := by
  simp only [tryMatchPrefixFirstName, h]

lemma tryMatchExactFirstName_snd_true (s : MatcherState) (p : PlayerModel)
    (cs : List Candidate) (h : findExactFirstNameMatches p cs ≠ []) :
    (tryMatchExactFirstName s p cs).2 = true := by
  rcases tryMatchExactFirstName_cases s p cs with ⟨h0, -⟩ | ⟨c, -, h1⟩ | ⟨l, h1⟩
  · exact absurd h0 h
  · rw [h1]
  · rw [h1]

lemma tryMatchByTeam_snd (s : MatcherState) (p : PlayerModel) (cs : List Candidate) :
    (tryMatchByTeam s p cs).2 = true := by
  rcases tryMatchByTeam_cases s p cs with ⟨c, -, h⟩ | ⟨l, h⟩ <;> rw [h]

lemma matchPlayerStep_unmatched (fg : List Candidate) (s : MatcherState)
    (p : PlayerModel) :
    (matchPlayerStep fg s p).unmatched_players =
      if findCandidatesByLastName fg s.matched_fg_ids p = []
      then s.unmatched_players ++ [p] else s.unmatched_players := by
  rcases matchPlayerStep_cases fg s p with ⟨hc, h⟩ | ⟨hne, ⟨c, -, h⟩ | ⟨l, h⟩⟩
  · rw [h, if_pos hc]
  · rw [h, if_neg hne]; rfl
  · rw [h, if_neg hne]

lemma findExactFirstNameMatches_nil (p : PlayerModel) :
    findExactFirstNameMatches p [] = [] := by
  unfold findExactFirstNameMatches
  split
  · rfl
  · split <;> rfl

lemma findExactFirstNameMatches_falsy {p : PlayerModel}
    (h : p.first_name = none ∨ p.first_name = some "") (cs : List Candidate) :
    findExactFirstNameMatches p cs = [] := by
  rcases h with h | h <;> simp [findExactFirstNameMatches, h]

lemma findPrefixFirstNameMatches_falsy {p : PlayerModel}
    (h : p.first_name = none ∨ p.first_name = some "") (cs : List Candidate) :
    findPrefixFirstNameMatches p cs = [] := by
  rcases h with h | h <;> simp [findPrefixFirstNameMatches, h]

lemma matchIdent_merge (p : PlayerModel) (c : Candidate) :
    matchIdent (merge_fangraphs_data p c) = matchIdent p := rfl

lemma perm_snoc_first {α : Type} (M A U : List α) (q : α) :
    List.Perm ((M ++ [q]) ++ A ++ U) (q :: (M ++ A ++ U)) := by
  have h1 : (M ++ [q]) ++ A ++ U = M ++ (q :: (A ++ U)) := by simp
  have h2 : M ++ A ++ U = M ++ (A ++ U) := by simp
  rw [h1, h2]
  exact List.perm_middle

lemma perm_snoc_second {α : Type} (M A U : List α) (q : α) :
    List.Perm (M ++ (A ++ [q]) ++ U) (q :: (M ++ A ++ U)) := by
  have h1 : M ++ (A ++ [q]) ++ U = (M ++ A) ++ (q :: U) := by simp
  have h2 : M ++ A ++ U = (M ++ A) ++ U := rfl
  rw [h1, h2]
  exact List.perm_middle

lemma perm_snoc_third {α : Type} (M A U : List α) (q : α) :
    List.Perm (M ++ A ++ (U ++ [q])) (q :: (M ++ A ++ U)) := by
  have h1 : M ++ A ++ (U ++ [q]) = (M ++ A ++ U) ++ [q] := by simp
  rw [h1]
  exact List.perm_append_singleton _ _

lemma matchPlayerStep_bucket_perm (fg : List Candidate) (s : MatcherState)
    (p : PlayerModel) :
    List.Perm ((bucketPlayers (matchPlayerStep fg s p)).map matchIdent)
      (matchIdent p :: (bucketPlayers s).map matchIdent) := by
  rcases matchPlayerStep_cases fg s p with ⟨-, h⟩ | ⟨-, ⟨c, -, h⟩ | ⟨l, h⟩⟩ <;> rw [h] <;>
    simp only [bucketPlayers, processMatch, List.map_append, List.map_cons, List.map_nil,
      matchIdent_merge]
  · exact perm_snoc_third _ _ _ _
  · exact perm_snoc_first _ _ _ _
  · exact perm_snoc_second _ _ _ _

lemma foldl_bucket_perm (fg : List Candidate) :
    ∀ (l : List PlayerModel) (s : MatcherState),
      List.Perm ((bucketPlayers (l.foldl (matchPlayerStep fg) s)).map matchIdent)
        (l.map matchIdent ++ (bucketPlayers s).map matchIdent) := by
  intro l
  induction l with
  | nil => intro s; simp
  | cons x xs ih =>
    intro s
    have h1 := ih (matchPlayerStep fg s x)
    have h2 := (matchPlayerStep_bucket_perm fg s x).append_left (xs.map matchIdent)
    simp only [List.foldl_cons]
    refine h1.trans (h2.trans ?_)
    have h3 := @List.perm_middle _ (matchIdent x) (xs.map matchIdent)
      ((bucketPlayers s).map matchIdent)
    simp only [List.map_cons, List.cons_append]
    exact h3

lemma match_players_as_foldl (players : List PlayerModel) (fg : List Candidate) :
    match_players players fg =
      { matched :=
          ((specialFirstOrder players).foldl (matchPlayerStep fg) {}).matched_players
        multiple_matches :=
          ((specialFirstOrder players).foldl (matchPlayerStep fg) {}).ambiguous_matches
        no_matches :=
          ((specialFirstOrder players).foldl (matchPlayerStep fg) {}).unmatched_players } := by
  simp only [match_players, specialFirstOrder, List.filter_filter, ← List.foldl_append,
    List.append_assoc]

lemma specialFirstOrder_perm (players : List PlayerModel) :
    List.Perm (specialFirstOrder players) players := by
  unfold specialFirstOrder
  have h1 : List.Perm
      (players.filter (fun p => isActiveOrInjured p && (hasTeam p && !isSpecial p))
        ++ players.filter (fun p => !isActiveOrInjured p && (hasTeam p && !isSpecial p)))
      (players.filter (fun p => hasTeam p && !isSpecial p)) := by
    have h := List.filter_append_perm isActiveOrInjured
      (players.filter (fun p => hasTeam p && !isSpecial p))
    rw [List.filter_filter, List.filter_filter] at h
    exact h
  have h2 : List.Perm
      (players.filter (fun p => hasTeam p && !isSpecial p)
        ++ players.filter (fun p => !hasTeam p && !isSpecial p))
      (players.filter (fun p => !isSpecial p)) := by
    have h := List.filter_append_perm hasTeam (players.filter (fun p => !isSpecial p))
    rw [List.filter_filter, List.filter_filter] at h
    exact h
  have h3 := List.filter_append_perm isSpecial players
  have hA := (h1.append_right
      (players.filter (fun p => !hasTeam p && !isSpecial p))).append_left
    (players.filter isSpecial)
  have hB := h2.append_left (players.filter isSpecial)
  have e1 : players.filter isSpecial
      ++ players.filter (fun p => isActiveOrInjured p && (hasTeam p && !isSpecial p))
      ++ players.filter (fun p => !isActiveOrInjured p && (hasTeam p && !isSpecial p))
      ++ players.filter (fun p => !hasTeam p && !isSpecial p)
      = players.filter isSpecial
        ++ (players.filter (fun p => isActiveOrInjured p && (hasTeam p && !isSpecial p))
          ++ players.filter (fun p => !isActiveOrInjured p && (hasTeam p && !isSpecial p))
          ++ players.filter (fun p => !hasTeam p && !isSpecial p)) := by
    simp [List.append_assoc]
  rw [e1]
  exact hA.trans (hB.trans h3)

lemma specialFirstOrder_subset {players : List PlayerModel} {q : PlayerModel}
    (h : q ∈ specialFirstOrder players) : q ∈ players := by
  unfold specialFirstOrder at h
  simp only [List.mem_append] at h
  rcases h with ((h | h) | h) | h <;> exact List.mem_of_mem_filter h

lemma processMatch_good {s : MatcherState} {p : PlayerModel} {c : Candidate}
    (hs : StateGood s) (hp : p.id_fangraphs = none)
    (hc : ∀ v, c.playerid = some v → v ∉ s.matched_fg_ids) :
    StateGood (processMatch s p c) := by
  obtain ⟨hmem, hpw⟩ := hs
  constructor
  · intro q hq x hx
    simp only [processMatch] at hq ⊢
    rw [List.mem_append] at hq
    rcases hq with hq | hq
    · have hxmem := hmem q hq x hx
      cases hcp : c.playerid with
      | none => simpa [hcp] using hxmem
      | some v =>
        simp only [hcp]
        rw [List.mem_insert_iff]
        exact Or.inr hxmem
    · rw [List.mem_singleton] at hq
      subst hq
      cases hcp : c.playerid with
      | none =>
        rw [show (merge_fangraphs_data p c).id_fangraphs = p.id_fangraphs from by
          simp [merge_fangraphs_data, hcp]] at hx
        rw [hp] at hx
        exact absurd hx (by simp)
      | some v =>
        rw [show (merge_fangraphs_data p c).id_fangraphs = some v from by
          simp [merge_fangraphs_data, hcp]] at hx
        have hvx : v = x := by injection hx
        simp only [hcp]
        rw [List.mem_insert_iff]
        exact Or.inl hvx.symm
  · simp only [processMatch]
    rw [List.pairwise_append]
    refine ⟨hpw, List.pairwise_singleton _ _, ?_⟩
    intro a ha b hb x hax
    rw [List.mem_singleton] at hb
    subst hb
    cases hcp : c.playerid with
    | none =>
      rw [show (merge_fangraphs_data p c).id_fangraphs = p.id_fangraphs from by
        simp [merge_fangraphs_data, hcp], hp]
      simp
    | some v =>
      rw [show (merge_fangraphs_data p c).id_fangraphs = some v from by
        simp [merge_fangraphs_data, hcp]]
      intro hvx
      have hxv : v = x := by injection hvx
      exact (hc v hcp) (hxv ▸ hmem a ha x hax)

lemma matchPlayerStep_good {fg : List Candidate} {s : MatcherState} {p : PlayerModel}
    (hs : StateGood s) (hp : p.id_fangraphs = none) :
    StateGood (matchPlayerStep fg s p) := by
  rcases matchPlayerStep_cases fg s p with ⟨-, h⟩ | ⟨-, ⟨c, hcc, h⟩ | ⟨l, h⟩⟩ <;> rw [h]
  · exact hs
  · exact processMatch_good hs hp (fun v hv => findCandidatesByLastName_not_claimed hcc v hv)
  · exact hs

lemma foldl_good (fg : List Candidate) :
    ∀ (l : List PlayerModel) (s : MatcherState), StateGood s →
      (∀ p ∈ l, p.id_fangraphs = none) →
      StateGood (l.foldl (matchPlayerStep fg) s) := by
  intro l
  induction l with
  | nil => intro s hs _; exact hs
  | cons x xs ih =>
    intro s hs hl
    simp only [List.foldl_cons]
    exact ih (matchPlayerStep fg s x)
      (matchPlayerStep_good hs (hl x (List.mem_cons_self x xs)))
      (fun p hp => hl p (List.mem_cons_of_mem x hp))

/-! ### Claim theorems -/

/-- Sanity check of the embedding on the specification's "accented
exact match" scenario: the ASCII name and team resolve the player to
candidate 12552. -/
lemma accented_exact_match_scenario :
    (match_players
      [{ name := some "Eugenio Suarez", first_name := some "Eugenio",
         last_name := some "Suarez", pro_team := some "ARI", status := some "active" }]
      [{ name := some "Eugenio Suárez", ascii_name := some "Eugenio Suarez",
         team := some "ARI", playerid := some "12552" },
       { name := some "José Ramírez", ascii_name := some "Jose Ramirez",
         team := some "CLE", playerid := some "14836" }]).matched.map
      (fun p => p.id_fangraphs) = [some "12552"] := by decide

/-- C7: `extract_last_name` splits on whitespace; with more than one
token and a final token that case-insensitively matches the suffix
pattern (Jr, Jr., Sr, Sr., II, III, IV) it returns the second-to-last
token, otherwise the last token; empty input yields the empty string;
and the four concrete examples from the specification hold. -/
theorem extract_last_name_spec :
    (∀ t : String, isSuffixTok t = true ↔
      strToLower t ∈ (["jr", "jr.", "sr", "sr.", "ii", "iii", "iv"] : List String)) ∧
    (∀ s : String,
      (pySplit s = [] → extract_last_name s = "") ∧
      (∀ a, pySplit s = [a] → extract_last_name s = a) ∧
      (∀ init a b, pySplit s = init ++ [a, b] →
        extract_last_name s = if isSuffixTok b then a else b)) ∧
    extract_last_name "Ken Griffey Jr." = "Griffey" ∧
    extract_last_name "Trey Mancini III" = "Mancini" ∧
    extract_last_name "John Smith" = "Smith" ∧
    extract_last_name "" = "" := by
  refine ⟨?_, ?_, by decide, by decide, by decide, by decide⟩
  · intro t
    simp only [isSuffixTok, List.mem_cons, List.not_mem_nil, or_false,
      Bool.or_eq_true, decide_eq_true_eq]
    tauto
  · intro s
    refine ⟨?_, ?_, ?_⟩
    · intro h
      simp [extract_last_name, h]
    · intro a h
      simp [extract_last_name, h]
    · intro init a b h
      have hlen : (init ++ [a, b]).length = init.length + 2 := by simp
      have hcons : ∃ x xs, init ++ [a, b] = x :: xs := by
        cases init with
        | nil => exact ⟨a, [b], rfl⟩
        | cons x xs => exact ⟨x, xs ++ [a, b], rfl⟩
      obtain ⟨x, xs, hx⟩ := hcons
      simp only [extract_last_name, h, hx]
      rw [← hx, hlen, getLastD_append_two]
      rw [decide_eq_true (show init.length + 2 > 1 by omega), Bool.true_and]
      by_cases hb : isSuffixTok b
      · rw [hb, if_pos rfl, if_pos rfl]
        have h2 : init.length + 2 - 2 = init.length := by omega
        rw [h2, get?_append_two]
        rfl
      · rw [Bool.not_eq_true] at hb
        rw [hb]
        simp

/-- Witness for C7 at a concrete input. -/
theorem extract_last_name_spec_witness :
    extract_last_name "Bobby Witt Jr." = "Witt" := by
  have h := extract_last_name_spec.2.1 "Bobby Witt Jr."
  have := h.2.2 ["Bobby"] "Witt" "Jr." (by decide)
  simpa using this

/-- C8: `filter_by_team` returns the empty list for a missing or empty
team code; otherwise it keeps exactly the candidates whose `team` field
equals the mapped code, where the mapping sends KC→KCR, SD→SDP, TB→TBR,
SF→SFG and passes every other code through unchanged. -/
theorem filter_by_team_spec :
    (∀ cs : List Candidate, filter_by_team cs none = []) ∧
    (∀ cs : List Candidate, filter_by_team cs (some "") = []) ∧
    (∀ (cs : List Candidate) (tc : String), tc ≠ "" →
      filter_by_team cs (some tc) =
        cs.filter (fun c => decide (c.team = some (ESPN_TO_FG_TEAM_MAPPING_get tc)))) ∧
    ESPN_TO_FG_TEAM_MAPPING_get "KC" = "KCR" ∧
    ESPN_TO_FG_TEAM_MAPPING_get "SD" = "SDP" ∧
    ESPN_TO_FG_TEAM_MAPPING_get "TB" = "TBR" ∧
    ESPN_TO_FG_TEAM_MAPPING_get "SF" = "SFG" ∧
    (∀ tc : String, tc ∉ (["KC", "SD", "TB", "SF"] : List String) →
      ESPN_TO_FG_TEAM_MAPPING_get tc = tc) := by
  refine ⟨fun cs => rfl, fun cs => rfl, ?_, by decide, by decide, by decide, by decide, ?_⟩
  · intro cs tc htc
    simp [filter_by_team, htc]
  · intro tc h
    simp only [List.mem_cons, List.not_mem_nil, or_false, not_or] at h
    obtain ⟨h1, h2, h3, h4⟩ := h
    simp [ESPN_TO_FG_TEAM_MAPPING_get, h1, h2, h3, h4]

/-- C3: a player lands in the unmatched bucket exactly when the
claimed-filtered same-last-name candidate pool is empty; and in the
team-only stage a zero-candidate team filter buckets the player as
ambiguous against the original candidate list, never as unmatched. -/
theorem unmatched_iff_empty_pool :
    ∀ (fg : List Candidate) (s : MatcherState) (p : PlayerModel),
      ((matchPlayerStep fg s p).unmatched_players =
        if findCandidatesByLastName fg s.matched_fg_ids p = []
        then s.unmatched_players ++ [p] else s.unmatched_players) ∧
      (∀ cs : List Candidate, filter_by_team cs p.pro_team = [] →
        tryMatchByTeam s p cs =
          ({ s with ambiguous_matches := s.ambiguous_matches ++ [(p, cs)] }, true)) := by
  intro fg s p
  refine ⟨matchPlayerStep_unmatched fg s p, ?_⟩
  intro cs hf
  simp only [tryMatchByTeam, hf]

/-- Witness for C3: a player whose team filter finds nothing is filed
ambiguous against the whole candidate list. -/
theorem unmatched_iff_empty_pool_witness :
    tryMatchByTeam {} { last_name := some "Smith" } [{ name := some "Al Smith" }] =
      ({ ambiguous_matches :=
          [({ last_name := some "Smith" }, [{ name := some "Al Smith" }])] }, true) := by
  have h := (unmatched_iff_empty_pool [] {} { last_name := some "Smith" }).2
    [{ name := some "Al Smith" }] (by decide)
  simpa using h

/-- C4: with more than one exact first-name match, a singleton team
filter resolves the player to that candidate, any other team-filter
outcome buckets the player ambiguous against the whole exact subset,
and in either case resolution stops at the exact stage. -/
theorem exact_stage_spec :
    ∀ (p : PlayerModel) (cs : List Candidate),
      1 < (findExactFirstNameMatches p cs).length →
      (∀ (s : MatcherState) (tm : Candidate),
        filter_by_team (findExactFirstNameMatches p cs) p.pro_team = [tm] →
        tryMatchExactFirstName s p cs = (processMatch s p tm, true)) ∧
      (∀ s : MatcherState,
        (filter_by_team (findExactFirstNameMatches p cs) p.pro_team).length ≠ 1 →
        tryMatchExactFirstName s p cs =
          ({ s with ambiguous_matches :=
              s.ambiguous_matches ++ [(p, findExactFirstNameMatches p cs)] }, true)) ∧
      (∀ (fg : List Candidate) (s : MatcherState),
        findCandidatesByLastName fg s.matched_fg_ids p = cs →
        matchPlayerStep fg s p = (tryMatchExactFirstName s p cs).1) := by
  intro p cs hlen
  obtain ⟨m1, ms, he⟩ : ∃ m1 ms, findExactFirstNameMatches p cs = m1 :: ms := by
    cases h : findExactFirstNameMatches p cs with
    | nil => rw [h] at hlen; simp at hlen
    | cons a b => exact ⟨a, b, rfl⟩
  obtain ⟨m2, ms2, he2⟩ : ∃ m2 ms2, ms = m2 :: ms2 := by
    cases hm : ms with
    | nil => rw [he, hm] at hlen; simp at hlen
    | cons a b => exact ⟨a, b, rfl⟩
  subst he2
  refine ⟨?_, ?_, ?_⟩
  · intro s tm hf
    rw [he] at hf
    simp only [tryMatchExactFirstName, he, hf]
  · intro s hf1
    rw [he] at hf1
    cases hf : filter_by_team (m1 :: m2 :: ms2) p.pro_team with
    | nil => simp only [tryMatchExactFirstName, he, hf]
    | cons t ts =>
      cases ts with
      | nil => rw [hf] at hf1; simp at hf1
      | cons t2 ts2 => simp only [tryMatchExactFirstName, he, hf]
  · intro fg s hcs
    cases cs with
    | nil =>
      rw [findExactFirstNameMatches_nil] at he
      exact absurd he.symm (List.cons_ne_nil m1 (m2 :: ms2))
    | cons c0 cs0 =>
      simp only [matchPlayerStep, hcs]
      rw [tryMatchExactFirstName_snd_true s p (c0 :: cs0) (by rw [he]; simp)]
      simp

/-- Witness for C4: two exact "Al" matches on different teams, the
player's team selects the first one. -/
theorem exact_stage_spec_witness :
    tryMatchExactFirstName {}
        { first_name := some "Al", last_name := some "Smith", pro_team := some "NYY" }
        [{ name := some "Al Smith", team := some "NYY", playerid := some "7" },
         { name := some "Al Smith", team := some "BOS", playerid := some "8" }] =
      (processMatch {}
        { first_name := some "Al", last_name := some "Smith", pro_team := some "NYY" }
        { name := some "Al Smith", team := some "NYY", playerid := some "7" }, true) := by
  exact (exact_stage_spec
    { first_name := some "Al", last_name := some "Smith", pro_team := some "NYY" }
    [{ name := some "Al Smith", team := some "NYY", playerid := some "7" },
     { name := some "Al Smith", team := some "BOS", playerid := some "8" }]
    (by decide)).1 {}
    { name := some "Al Smith", team := some "NYY", playerid := some "7" } (by decide)

/-- C10: a player with an empty or missing first name gets zero exact
and zero prefix first-name matches, so with a non-empty candidate pool
it is resolved entirely by the team-only stage: matched when the team
filter yields exactly one candidate, ambiguous otherwise. -/
theorem falsy_first_name_team_only :
    ∀ p : PlayerModel, (p.first_name = none ∨ p.first_name = some "") →
      (∀ cs : List Candidate,
        findExactFirstNameMatches p cs = [] ∧ findPrefixFirstNameMatches p cs = []) ∧
      (∀ (fg : List Candidate) (s : MatcherState),
        findCandidatesByLastName fg s.matched_fg_ids p ≠ [] →
        matchPlayerStep fg s p =
          (tryMatchByTeam s p (findCandidatesByLastName fg s.matched_fg_ids p)).1) ∧
      (∀ (s : MatcherState) (cs : List Candidate) (tm : Candidate),
        filter_by_team cs p.pro_team = [tm] →
        tryMatchByTeam s p cs = (processMatch s p tm, true)) ∧
      (∀ (s : MatcherState) (cs : List Candidate),
        (filter_by_team cs p.pro_team).length ≠ 1 →
        (tryMatchByTeam s p cs).1.matched_players = s.matched_players ∧
        ∃ l, (tryMatchByTeam s p cs).1.ambiguous_matches =
          s.ambiguous_matches ++ [(p, l)]) := by
  intro p hfn
  refine ⟨fun cs => ⟨findExactFirstNameMatches_falsy hfn cs,
    findPrefixFirstNameMatches_falsy hfn cs⟩, ?_, ?_, ?_⟩
  · intro fg s hne
    cases hc : findCandidatesByLastName fg s.matched_fg_ids p with
    | nil => exact absurd hc hne
    | cons c0 cs0 =>
      simp only [matchPlayerStep, hc]
      rw [tryMatchExactFirstName_of_empty s p (c0 :: cs0)
          (findExactFirstNameMatches_falsy hfn _),
        tryMatchPrefixFirstName_of_empty s p (c0 :: cs0)
          (findPrefixFirstNameMatches_falsy hfn _)]
      simp [tryMatchByTeam_snd]
  · intro s cs tm hf
    simp only [tryMatchByTeam, hf]
  · intro s cs hf1
    cases hf : filter_by_team cs p.pro_team with
    | nil =>
      have h3 : tryMatchByTeam s p cs =
          ({ s with ambiguous_matches := s.ambiguous_matches ++ [(p, cs)] }, true) := by
        simp only [tryMatchByTeam, hf]
      rw [h3]
      exact ⟨rfl, cs, rfl⟩
    | cons t ts =>
      cases ts with
      | nil => rw [hf] at hf1; simp at hf1
      | cons t2 ts2 =>
        have h3 : tryMatchByTeam s p cs =
            ({ s with ambiguous_matches :=
                s.ambiguous_matches ++ [(p, t :: t2 :: ts2)] }, true) := by
          simp only [tryMatchByTeam, hf]
        rw [h3]
        exact ⟨rfl, t :: t2 :: ts2, rfl⟩

/-- Witness for C10 at a player with a missing first name. -/
theorem falsy_first_name_team_only_witness :
    findExactFirstNameMatches { last_name := some "Smith" } [demoSharedCand] = [] ∧
    findPrefixFirstNameMatches { last_name := some "Smith" } [demoSharedCand] = [] := by
  exact (falsy_first_name_team_only { last_name := some "Smith" }
    (Or.inl rfl)).1 [demoSharedCand]

/-- C9: only candidates carrying a `playerid` key are ever claimed: a
merged candidate without one leaves the claimed set unchanged and still
passes the claimed filter, and on a concrete input the same candidate
record is merged into two different players. -/
theorem unclaimed_without_playerid :
    (∀ (s : MatcherState) (p : PlayerModel) (c : Candidate),
      c.playerid = none → (processMatch s p c).matched_fg_ids = s.matched_fg_ids) ∧
    (∀ (claimed : List String) (c : Candidate),
      c.playerid = none → claimedFilter claimed c = true) ∧
    (match_players [demoSmithA, demoSmithB] [demoSharedCand]).matched.map
      (fun q => q.slug_fangraphs) = [some "al-smith", some "al-smith"] ∧
    (match_players [demoSmithA, demoSmithB] [demoSharedCand]).multiple_matches = [] ∧
    (match_players [demoSmithA, demoSmithB] [demoSharedCand]).no_matches = [] := by
  refine ⟨?_, ?_, by decide, by decide, by decide⟩
  · intro s p c h
    simp [processMatch, h]
  · intro claimed c h
    simp [claimedFilter, h]

/-- Witness for C9: merging the concrete `playerid`-less candidate
claims nothing. -/
theorem unclaimed_without_playerid_witness :
    (processMatch {} demoSmithA demoSharedCand).matched_fg_ids =
      ({} : MatcherState).matched_fg_ids := by
  exact unclaimed_without_playerid.1 {} demoSmithA demoSharedCand (by decide)

/-- C5 counterexample: `merge_fangraphs_data` overwrites pre-existing
non-null external id fields when the candidate carries the key. -/
theorem merge_overwrites_preexisting_id :
    (merge_fangraphs_data { id_fangraphs := some "100", id_xmlbam := some 5 }
        { playerid := some "200", xmlbam_id := some 7 }).id_fangraphs = some "200" ∧
    (merge_fangraphs_data { id_fangraphs := some "100", id_xmlbam := some 5 }
        { playerid := some "200", xmlbam_id := some 7 }).id_xmlbam = some 7 :=
  ⟨rfl, rfl⟩

/-- C5 amended: the external id, slug and api-route fields are copied
unconditionally whenever the candidate carries the corresponding key
(overwriting any pre-existing value) and left alone otherwise, while
the raw and ASCII name fields are first-write-wins; the player's own
identity fields are never touched. -/
theorem merge_fangraphs_data_spec :
    ∀ (p : PlayerModel) (c : Candidate),
      (∀ v, c.playerid = some v → (merge_fangraphs_data p c).id_fangraphs = some v) ∧
      (c.playerid = none → (merge_fangraphs_data p c).id_fangraphs = p.id_fangraphs) ∧
      (∀ v, c.xmlbam_id = some v → (merge_fangraphs_data p c).id_xmlbam = some v) ∧
      (c.xmlbam_id = none → (merge_fangraphs_data p c).id_xmlbam = p.id_xmlbam) ∧
      (falsyOptStr p.name_nonascii = false →
        (merge_fangraphs_data p c).name_nonascii = p.name_nonascii) ∧
      (∀ v, falsyOptStr p.name_nonascii = true → c.name = some v →
        (merge_fangraphs_data p c).name_nonascii = some v) ∧
      (falsyOptStr p.name_ascii = false →
        (merge_fangraphs_data p c).name_ascii = p.name_ascii) ∧
      (∀ v, falsyOptStr p.name_ascii = true → c.ascii_name = some v →
        (merge_fangraphs_data p c).name_ascii = some v) ∧
      (merge_fangraphs_data p c).id_espn = p.id_espn ∧
      (merge_fangraphs_data p c).name = p.name ∧
      (merge_fangraphs_data p c).first_name = p.first_name ∧
      (merge_fangraphs_data p c).last_name = p.last_name ∧
      (merge_fangraphs_data p c).pro_team = p.pro_team ∧
      (merge_fangraphs_data p c).status = p.status := by
  intro p c
  refine ⟨?_, ?_, ?_, ?_, ?_, ?_, ?_, ?_, rfl, rfl, rfl, rfl, rfl, rfl⟩
  · intro v h; simp [merge_fangraphs_data, h]
  · intro h; simp [merge_fangraphs_data, h]
  · intro v h; simp [merge_fangraphs_data, h]
  · intro h; simp [merge_fangraphs_data, h]
  · intro h; cases hc : c.name <;> simp [merge_fangraphs_data, h, hc]
  · intro v h hc; simp [merge_fangraphs_data, h, hc]
  · intro h; cases hc : c.ascii_name <;> simp [merge_fangraphs_data, h, hc]
  · intro v h hc; simp [merge_fangraphs_data, h, hc]

/-- Witness for C5's amended statement: a first merge into a fresh
player sets every field from the candidate. -/
theorem merge_fangraphs_data_spec_witness :
    (merge_fangraphs_data {} demoSharedCand).name_nonascii = some "Al Smith" := by
  exact ((merge_fangraphs_data_spec {} demoSharedCand).2.2.2.2.2.1) "Al Smith"
    (by decide) (by decide)

/-- C6: `match_players` processes the input in four order-preserving
phases — the curated special names, then players with a non-empty team
code and status active/injured, then the other players with a team
code, then the team-less players — each phase being a filter of the
input list, and the run is the fold of the single-player resolution
over their concatenation. -/
theorem match_players_processing_order :
    ∀ (players : List PlayerModel) (fg : List Candidate),
      (match_players players fg =
        { matched :=
            ((specialFirstOrder players).foldl (matchPlayerStep fg) {}).matched_players
          multiple_matches :=
            ((specialFirstOrder players).foldl (matchPlayerStep fg) {}).ambiguous_matches
          no_matches :=
            ((specialFirstOrder players).foldl (matchPlayerStep fg) {}).unmatched_players }) ∧
      (∀ players2 : List PlayerModel, specialFirstOrder players2 =
        players2.filter isSpecial
          ++ players2.filter (fun p => isActiveOrInjured p && (hasTeam p && !isSpecial p))
          ++ players2.filter (fun p => !isActiveOrInjured p && (hasTeam p && !isSpecial p))
          ++ players2.filter (fun p => !hasTeam p && !isSpecial p)) ∧
      (∀ p : PlayerModel, isSpecial p = true ↔
        ∃ n, p.name = some n ∧
          n ∈ (["Gary Sanchez", "Jose Ramirez", "Luis Garcia", "Eugenio Suarez"] :
            List String)) ∧
      (∀ p : PlayerModel, hasTeam p = true ↔ ∃ t, p.pro_team = some t ∧ t ≠ "") ∧
      (∀ p : PlayerModel, isActiveOrInjured p = true ↔
        (p.status = some "active" ∨ p.status = some "injured")) := by
  intro players fg
  refine ⟨match_players_as_foldl players fg, fun players2 => ?_, ?_, ?_, ?_⟩
  · simp [specialFirstOrder, List.append_assoc]
  · intro p
    cases h : p.name with
    | none => simp [isSpecial, h, special_players]
    | some n => simp [isSpecial, h, special_players]
  · intro p
    cases h : p.pro_team with
    | none => simp [hasTeam, h]
    | some t => simp [hasTeam, h]
  · intro p
    simp [isActiveOrInjured]

/-- C1: every input player lands in exactly one outcome bucket: the
bucket sizes sum to the number of input players, the buckets taken
together are a permutation of the input (up to the merge-untouched
identity projection), and for identity-distinct inputs the buckets are
pairwise disjoint. -/
theorem match_players_partition :
    ∀ (players : List PlayerModel) (fg : List Candidate),
      ((match_players players fg).matched.length +
        (match_players players fg).multiple_matches.length +
        (match_players players fg).no_matches.length = players.length) ∧
      List.Perm
        (((match_players players fg).matched ++
          (match_players players fg).multiple_matches.map Prod.fst ++
          (match_players players fg).no_matches).map matchIdent)
        (players.map matchIdent) ∧
      ((players.map matchIdent).Nodup →
        ((match_players players fg).matched.map matchIdent).Disjoint
          (((match_players players fg).multiple_matches.map Prod.fst).map matchIdent) ∧
        ((match_players players fg).matched.map matchIdent).Disjoint
          ((match_players players fg).no_matches.map matchIdent) ∧
        (((match_players players fg).multiple_matches.map Prod.fst).map
            matchIdent).Disjoint
          ((match_players players fg).no_matches.map matchIdent)) := by
  intro players fg
  have hperm : List.Perm
      (((match_players players fg).matched ++
        (match_players players fg).multiple_matches.map Prod.fst ++
        (match_players players fg).no_matches).map matchIdent)
      (players.map matchIdent) := by
    rw [match_players_as_foldl]
    have h1 := foldl_bucket_perm fg (specialFirstOrder players) {}
    have h0 : (bucketPlayers ({} : MatcherState)).map matchIdent = [] := rfl
    rw [h0, List.append_nil] at h1
    exact h1.trans ((specialFirstOrder_perm players).map matchIdent)
  have hlen := hperm.length_eq
  simp only [List.length_map, List.length_append] at hlen
  refine ⟨by simpa using hlen, hperm, ?_⟩
  intro hnd
  have hbn := hperm.symm.nodup hnd
  rw [List.map_append, List.map_append] at hbn
  rw [List.nodup_append] at hbn
  obtain ⟨hab, -, habc⟩ := hbn
  rw [List.nodup_append] at hab
  obtain ⟨-, -, hABdisj⟩ := hab
  refine ⟨hABdisj, ?_, ?_⟩
  · intro a haA haC
    exact habc (List.mem_append_left _ haA) haC
  · intro a haB haC
    exact habc (List.mem_append_right _ haB) haC

/-- Witness for C1's disjointness clause at a concrete input. -/
theorem match_players_partition_witness :
    ((match_players [demoSmithA] []).matched.map matchIdent).Disjoint
      (((match_players [demoSmithA] []).multiple_matches.map Prod.fst).map matchIdent) ∧
    ((match_players [demoSmithA] []).matched.length +
      (match_players [demoSmithA] []).multiple_matches.length +
      (match_players [demoSmithA] []).no_matches.length = 1) := by
  exact ⟨((match_players_partition [demoSmithA] []).2.2
      (by simp)).1,
    (match_players_partition [demoSmithA] []).1⟩

/-- C2: every last-name lookup filters out candidates whose `playerid`
is already claimed, and (for inputs whose `id_fangraphs` starts unset,
as the pipeline guarantees) no two distinct matched players end the run
carrying the same merged `playerid`. -/
theorem match_players_claim_uniqueness :
    (∀ (fg : List Candidate) (claimed : List String) (p : PlayerModel) (c : Candidate),
      c ∈ findCandidatesByLastName fg claimed p →
      ∀ v, c.playerid = some v → v ∉ claimed) ∧
    (∀ (players : List PlayerModel) (fg : List Candidate),
      (∀ p ∈ players, p.id_fangraphs = none) →
      (match_players players fg).matched.Pairwise
        (fun a b => ∀ x, a.id_fangraphs = some x → b.id_fangraphs ≠ some x)) := by
  refine ⟨fun fg claimed p c h => findCandidatesByLastName_not_claimed h, ?_⟩
  intro players fg h
  rw [match_players_as_foldl]
  have hg : StateGood ((specialFirstOrder players).foldl (matchPlayerStep fg) {}) := by
    apply foldl_good
    · exact ⟨by simp [MatcherState.matched_players], List.Pairwise.nil⟩
    · intro p hp
      exact h p (specialFirstOrder_subset hp)
  exact hg.2

/-- Witness for C2 on the concrete two-player run. -/
theorem match_players_claim_uniqueness_witness :
    (match_players [demoSmithA, demoSmithB] [demoSharedCand]).matched.Pairwise
      (fun a b => ∀ x, a.id_fangraphs = some x → b.id_fangraphs ≠ some x) := by
  exact match_players_claim_uniqueness.2 [demoSmithA, demoSmithB] [demoSharedCand]
    (by decide)

/-- Witness for C8: the specification's own team-mapping example. -/
theorem filter_by_team_spec_witness :
    filter_by_team
        [{ team := some "NYY" }, { team := some "BOS" }] (some "NYY") =
      [{ team := some "NYY" }] ∧
    ESPN_TO_FG_TEAM_MAPPING_get "NYY" = "NYY" := by
  obtain ⟨-, -, h3, -, -, -, -, h8⟩ := filter_by_team_spec
  refine ⟨?_, h8 "NYY" (by decide)⟩
  rw [h3 _ "NYY" (by decide)]
  decide

end PlayerUniverse
